import Mathlib

/-!
Shallow embedding of src/Singleton.cpp: several singleton patterns
(double-checked locking, magic static, token-gated base, an explicitly
managed global registry, and an eagerly initialized singleton), together
with proofs of the behavioural properties claimed for them.

Machine state is modelled explicitly: a registry slot or instance pointer
becomes an Option, constructor and destructor side effects become counters,
and printed lines become a list of strings. Interleaved multi-threaded
executions are modelled by a small-step transition relation on
configurations holding one program counter per thread.
-/

/- ===================== Clobal<T> (managed global registry) ============ -/

namespace Clobal

/-- State of the Clobal registry slot for one type T, together with the
observable side effects: the slot itself (static T* ptr, none = nullptr),
the number of destructor invocations performed by Delete, and the lines
printed to stdout. -/
structure State (T : Type) where
  slot : Option T
  destroyed : Nat
  out : List String
deriving DecidableEq

/-- The initial slot: static T* ptr = nullptr inside GetPPtr. -/
def State.init (T : Type) : State T := ⟨none, 0, []⟩

/-- Clobal::GetPPtr dereferenced once, i.e. the current value of the
static pointer. -/
def GetPPtr (s : State T) : Option T := s.slot

/-- Clobal::Get: return *GetPPtr(). Reads the slot; the state it leaves
behind is returned unchanged in the second component. -/
def Get (s : State T) : Option T × State T := (GetPPtr s, s)

/-- Clobal::New(args...): assert(Get() == nullptr) and then
*GetPPtr() = new T(std::forward(args)...). A failed assertion aborts the
process, modelled as Except.error; on success the freshly constructed
value ctor a is installed in the slot. -/
def New {Args T : Type} (ctor : Args → T) (a : Args) (s : State T) :
    Except String (State T) :=
  match (Get s).1 with
  | some _ => .error "assert failed in Clobal::New: Get() == nullptr"
  | none => .ok { s with slot := some (ctor a) }

/-- Clobal::Delete: if Get() != nullptr, delete the instance (one
destructor invocation), reset the slot to nullptr and print Delete;
otherwise do nothing. -/
def Delete (s : State T) : State T :=
  match (Get s).1 with
  | some _ => ⟨none, s.destroyed + 1, s.out ++ ["Delete"]⟩
  | none => s

end Clobal

/-- A stand-in for the guarded type of the C1 scenario: a type Foo whose
constructor takes two Nat arguments. -/
structure Foo where
  a : Nat
  b : Nat
deriving DecidableEq

/-- The constructor of Foo as a function of its argument pair, as forwarded
by Clobal::New. -/
def fooCtor (p : Nat × Nat) : Foo := ⟨p.1, p.2⟩

/- ===================== Singleton1, sequential view ==================== -/

namespace Singleton1

/-- Sequential state of Singleton1: the static shared_ptr m_instance_ptr
(none = nullptr, some i = a live instance with identity i) and the number
of times the private constructor has run. -/
structure S where
  m_instance_ptr : Option Nat
  ctorCalls : Nat
deriving DecidableEq

/-- The state before the first call: m_instance_ptr is null, the
constructor has never run. -/
def init : S := ⟨none, 0⟩

/-- Singleton1::get_instance executed without interleaving: if
m_instance_ptr is null, lock m_mutex (uncontended here), re-check, and
construct; finally return m_instance_ptr. The returned shared_ptr value is
the Option Nat in the first component. -/
def get_instance (s : S) : Option Nat × S :=
  match s.m_instance_ptr with
  | some p => (some p, s)
  | none =>
      let s1 : S := ⟨some s.ctorCalls, s.ctorCalls + 1⟩
      (s1.m_instance_ptr, s1)

/-- k successive calls to get_instance, collecting the returned handles. -/
def runCalls : Nat → S → List (Option Nat) × S
  | 0, s => ([], s)
  | k + 1, s =>
      let r := get_instance s
      let rest := runCalls k r.2
      (r.1 :: rest.1, rest.2)

end Singleton1

/- ===================== Singleton3 (token-gated base), sequential ====== -/

namespace Singleton3

/-- The nested empty marker type struct token of Singleton3, constructible
only inside the base in the source. -/
structure token where
  mk ::
deriving DecidableEq

/-- Sequential state of Singleton3 for a guarded type T: the
function-local static T instance (none = initialization not yet completed)
and the number of times the constructor of T has started running. -/
structure S (T : Type) where
  inst : Option T
  ctorRuns : Nat

/-- The state before the first call: the static is uninitialized. -/
def S.start (T : Type) : S T := ⟨none, 0⟩

/-- Singleton3::get_instance executed without interleaving:
the static T instance is list-initialized from token() and returned by
reference. The constructor of T,
invoked with a token, may throw (Except.error). Per the C++ semantics of
function-local statics, an initialization that exits by throwing leaves
the static uninitialized and is retried on the next call. -/
def get_instance3 {T E : Type} (ctor : token → Except E T) (s : S T) :
    Except E T × S T :=
  match s.inst with
  | some v => (.ok v, s)
  | none =>
      match ctor token.mk with
      | .ok v => (.ok v, ⟨some v, s.ctorRuns + 1⟩)
      | .error e => (.error e, ⟨none, s.ctorRuns + 1⟩)

end Singleton3

/- ===================== Singleton4 (eager) ============================= -/

namespace Singleton4

/-- State of Singleton4 after static initialization: the identity of the
statically constructed instance m_instance and the number of constructor
runs so far. -/
structure World where
  m_instance : Nat
  ctorCalls : Nat
deriving DecidableEq

/-- Static initialization: Singleton4 Singleton4::m_instance runs the
private constructor exactly once before any accessor call. -/
def boot : World := ⟨0, 1⟩

/-- Singleton4::get_instance: return m_instance. It reads the pre-existing
instance and changes nothing. -/
def get_instance4 (w : World) : Nat × World := (w.m_instance, w)

/-- k successive calls to get_instance, collecting the returned
references. -/
def runCalls4 : Nat → World → List Nat × World
  | 0, w => ([], w)
  | k + 1, w =>
      let r := get_instance4 w
      let rest := runCalls4 k r.2
      (r.1 :: rest.1, rest.2)

end Singleton4

/- ============ Singleton1 under interleaved threads (DCL) ============== -/

namespace DCL

/-- Program counter of one thread executing Singleton1::get_instance.
check is the unsynchronized null test; acquire waits on m_mutex; recheck
is the second null test under the lock; construct is the assignment
m_instance_ptr = shared_ptr(new Singleton1); unlock releases the
lock_guard at the end of the if block; ret is the final
return m_instance_ptr, which re-reads the pointer; done v records the
returned shared_ptr value. -/
inductive PC where
  | check
  | acquire
  | recheck
  | construct
  | unlock
  | ret
  | done (v : Option Nat)
deriving DecidableEq

/-- PCs at which the thread holds m_mutex. -/
def PC.holdsLock : PC → Bool
  | .recheck => true
  | .construct => true
  | .unlock => true
  | _ => false

/-- PCs a thread can only be at once m_instance_ptr has become non-null. -/
def PC.sawPtr : PC → Bool
  | .unlock => true
  | .ret => true
  | .done _ => true
  | _ => false

/-- A configuration of n threads racing through get_instance: the shared
static m_instance_ptr (none = nullptr, some i = instance with identity i),
the number of constructor runs, the owner of m_mutex, and one program
counter per thread. -/
structure Config (n : Nat) where
  ptr : Option Nat
  ctorCount : Nat
  lock : Option (Fin n)
  pcs : Fin n → PC

/-- The initial configuration: no instance, no constructor run, the mutex
free, every thread about to perform the first null check. -/
def dInit (n : Nat) : Config n := ⟨none, 0, none, fun _ => .check⟩

/-- One interleaved step, sequentially consistent: some thread executes
its next atomic action of Singleton1::get_instance. -/
inductive DStep {n : Nat} : Config n → Config n → Prop where
  | checkHit (c : Config n) (t : Fin n) (i : Nat) :
      c.pcs t = .check → c.ptr = some i →
      DStep c { c with pcs := Function.update c.pcs t .ret }
  | checkMiss (c : Config n) (t : Fin n) :
      c.pcs t = .check → c.ptr = none →
      DStep c { c with pcs := Function.update c.pcs t .acquire }
  | acquire (c : Config n) (t : Fin n) :
      c.pcs t = .acquire → c.lock = none →
      DStep c { c with lock := some t, pcs := Function.update c.pcs t .recheck }
  | recheckNull (c : Config n) (t : Fin n) :
      c.pcs t = .recheck → c.ptr = none →
      DStep c { c with pcs := Function.update c.pcs t .construct }
  | recheckHit (c : Config n) (t : Fin n) (i : Nat) :
      c.pcs t = .recheck → c.ptr = some i →
      DStep c { c with pcs := Function.update c.pcs t .unlock }
  | construct (c : Config n) (t : Fin n) :
      c.pcs t = .construct →
      DStep c { c with ptr := some c.ctorCount, ctorCount := c.ctorCount + 1,
                       pcs := Function.update c.pcs t .unlock }
  | unlock (c : Config n) (t : Fin n) :
      c.pcs t = .unlock →
      DStep c { c with lock := none, pcs := Function.update c.pcs t .ret }
  | ret (c : Config n) (t : Fin n) :
      c.pcs t = .ret →
      DStep c { c with pcs := Function.update c.pcs t (.done c.ptr) }

/-- Configurations reachable from the initial one by interleaved steps. -/
def DReachable {n : Nat} (c : Config n) : Prop :=
  Relation.ReflTransGen DStep (dInit n) c

/-- Every thread has returned from get_instance. -/
def dAllDone {n : Nat} (c : Config n) : Prop :=
  ∀ t : Fin n, ∃ v, c.pcs t = .done v

/-- The inductive invariant of the interleaved double-checked locking
protocol. -/
structure DInv {n : Nat} (c : Config n) : Prop where
  ptrCtor : (c.ptr = none ∧ c.ctorCount = 0) ∨ (c.ptr = some 0 ∧ c.ctorCount = 1)
  lockOwn : ∀ t, (c.pcs t).holdsLock = true → c.lock = some t
  constructNull : ∀ t, c.pcs t = .construct → c.ptr = none
  ptrSeen : ∀ t, (c.pcs t).sawPtr = true → c.ptr ≠ none
  doneVal : ∀ t v, c.pcs t = .done v → v = some 0

end DCL

/- ==== Singleton2/Singleton3 under interleaved threads (magic static) == -/

namespace MagicStatic

/-- Program counter of one thread executing a magic-static accessor
(Singleton2::get_instance, or Singleton3::get_instance as used by
DerivedSingle): start is the arrival at the declaration of the
function-local static; construct is running the constructor as the thread
that claimed initialization; done v records the identity of the instance
the returned reference designates. -/
inductive GPC where
  | start
  | construct
  | done (v : Nat)
deriving DecidableEq

/-- The guard state of a function-local static: raw (never reached),
initing t (thread t is running the initialization, every other arriving
thread blocks), ready v (initialized, holding instance identity v). -/
inductive Guard (n : Nat) where
  | raw
  | initing (t : Fin n)
  | ready (v : Nat)
deriving DecidableEq

/-- A configuration of n threads racing through a magic-static accessor. -/
structure MConfig (n : Nat) where
  guard : Guard n
  ctorCount : Nat
  pcs : Fin n → GPC

/-- The initial configuration: static never reached, no constructor run. -/
def mInit (n : Nat) : MConfig n := ⟨.raw, 0, fun _ => .start⟩

/-- One interleaved step of the C++11 one-time-initialization semantics:
a thread arriving at an initialized static returns it; the first thread
to arrive at an uninitialized static claims the initialization; the
claiming thread completes the construction and publishes the instance.
A thread arriving while another holds the guard has no enabled step:
it blocks until initialization completes. -/
inductive MStep {n : Nat} : MConfig n → MConfig n → Prop where
  | hit (c : MConfig n) (t : Fin n) (v : Nat) :
      c.pcs t = .start → c.guard = .ready v →
      MStep c { c with pcs := Function.update c.pcs t (.done v) }
  | claim (c : MConfig n) (t : Fin n) :
      c.pcs t = .start → c.guard = .raw →
      MStep c { c with guard := .initing t,
                       pcs := Function.update c.pcs t .construct }
  | finish (c : MConfig n) (t : Fin n) :
      c.pcs t = .construct →
      MStep c { c with guard := .ready c.ctorCount,
                       ctorCount := c.ctorCount + 1,
                       pcs := Function.update c.pcs t (.done c.ctorCount) }

/-- Configurations reachable from the initial one by interleaved steps. -/
def MReachable {n : Nat} (c : MConfig n) : Prop :=
  Relation.ReflTransGen MStep (mInit n) c

/-- Every thread has returned from the accessor. -/
def mAllDone {n : Nat} (c : MConfig n) : Prop :=
  ∀ t : Fin n, ∃ v, c.pcs t = .done v

/-- The inductive invariant of the one-time-initialization protocol. -/
structure MInv {n : Nat} (c : MConfig n) : Prop where
  guardCtor : (c.guard = .raw ∧ c.ctorCount = 0) ∨
    (∃ t, c.guard = .initing t ∧ c.ctorCount = 0) ∨
    (c.guard = .ready 0 ∧ c.ctorCount = 1)
  constructOwn : ∀ t, c.pcs t = .construct → c.guard = .initing t
  doneReady : ∀ t v, c.pcs t = .done v → v = 0 ∧ c.guard = .ready 0

end MagicStatic

/- ===== Concrete single-thread executions of the two automata ========== -/

/-- Stages of one thread driving Singleton1::get_instance to completion:
the configurations after 0, 1, ..., 6 steps. -/
def dTrace : Nat → DCL.Config 1
  | 0 => ⟨none, 0, none, fun _ => .check⟩
  | 1 => ⟨none, 0, none, fun _ => .acquire⟩
  | 2 => ⟨none, 0, some 0, fun _ => .recheck⟩
  | 3 => ⟨none, 0, some 0, fun _ => .construct⟩
  | 4 => ⟨some 0, 1, some 0, fun _ => .unlock⟩
  | 5 => ⟨some 0, 1, none, fun _ => .ret⟩
  | _ => ⟨some 0, 1, none, fun _ => .done (some 0)⟩

/-- Stages of one thread driving a magic-static accessor to completion:
the configurations after 0, 1, 2 steps. -/
def mTrace : Nat → MagicStatic.MConfig 1
  | 0 => ⟨.raw, 0, fun _ => .start⟩
  | 1 => ⟨.initing 0, 0, fun _ => .construct⟩
  | _ => ⟨.ready 0, 1, fun _ => .done 0⟩

/- ======================= Helper lemmas =============================== -/

/-- Once Singleton1 holds an instance, any number of further calls return
that same handle and leave the state untouched. -/
theorem singleton1_runCalls_of_some (k : Nat) (s : Singleton1.S) (i : Nat)
    (h : s.m_instance_ptr = some i) :
    Singleton1.runCalls k s = (List.replicate k (some i), s) := by
  induction k with
  | zero => simp [Singleton1.runCalls]
  | succ k ih =>
      simp [Singleton1.runCalls, Singleton1.get_instance, h, ih,
        List.replicate_succ]

/-- Singleton4 calls return the resident instance and never change the
world. -/
theorem singleton4_runCalls4_const (k : Nat) (w : Singleton4.World) :
    Singleton4.runCalls4 k w = (List.replicate k w.m_instance, w) := by
  induction k with
  | zero => simp [Singleton4.runCalls4]
  | succ k ih =>
      simp [Singleton4.runCalls4, Singleton4.get_instance4, ih,
        List.replicate_succ]

/-- The invariant holds in the initial DCL configuration. -/
theorem dcl_inv_init (n : Nat) : DCL.DInv (DCL.dInit n) := by
  refine ⟨Or.inl ⟨rfl, rfl⟩, ?_, ?_, ?_, ?_⟩
  · intro t h; simp [DCL.dInit, DCL.PC.holdsLock] at h
  · intro t h; simp [DCL.dInit] at h
  · intro t h; simp [DCL.dInit, DCL.PC.sawPtr] at h
  · intro t v h; simp [DCL.dInit] at h

/-- Every interleaved step of the double-checked locking protocol
preserves the invariant. -/
theorem dcl_inv_step {n : Nat} {c c2 : DCL.Config n}
    (hi : DCL.DInv c) (hs : DCL.DStep c c2) : DCL.DInv c2 := by
  obtain ⟨hp, hl, hcn, hsaw, hd⟩ := hi
  cases hs with
  | checkHit t i hpc hptr =>
      refine ⟨hp, ?_, ?_, ?_, ?_⟩
      · intro t2 h2
        rcases eq_or_ne t2 t with rfl | hne
        · simp [Function.update_same, DCL.PC.holdsLock] at h2
        · simp only [Function.update_noteq hne] at h2
          exact hl t2 h2
      · intro t2 h2
        rcases eq_or_ne t2 t with rfl | hne
        · simp [Function.update_same] at h2
        · simp only [Function.update_noteq hne] at h2
          exact hcn t2 h2
      · intro t2 h2
        simp [hptr]
      · intro t2 v h2
        rcases eq_or_ne t2 t with rfl | hne
        · simp [Function.update_same] at h2
        · simp only [Function.update_noteq hne] at h2
          exact hd t2 v h2
  | checkMiss t hpc hptr =>
      refine ⟨hp, ?_, ?_, ?_, ?_⟩
      · intro t2 h2
        rcases eq_or_ne t2 t with rfl | hne
        · simp [Function.update_same, DCL.PC.holdsLock] at h2
        · simp only [Function.update_noteq hne] at h2
          exact hl t2 h2
      · intro t2 h2
        rcases eq_or_ne t2 t with rfl | hne
        · simp [Function.update_same] at h2
        · simp only [Function.update_noteq hne] at h2
          exact hcn t2 h2
      · intro t2 h2
        rcases eq_or_ne t2 t with rfl | hne
        · simp [Function.update_same, DCL.PC.sawPtr] at h2
        · simp only [Function.update_noteq hne] at h2
          exact hsaw t2 h2
      · intro t2 v h2
        rcases eq_or_ne t2 t with rfl | hne
        · simp [Function.update_same] at h2
        · simp only [Function.update_noteq hne] at h2
          exact hd t2 v h2
  | acquire t hpc hlock =>
      refine ⟨hp, ?_, ?_, ?_, ?_⟩
      · intro t2 h2
        rcases eq_or_ne t2 t with rfl | hne
        · rfl
        · simp only [Function.update_noteq hne] at h2
          have hx := hl t2 h2
          rw [hlock] at hx
          exact Option.noConfusion hx
      · intro t2 h2
        rcases eq_or_ne t2 t with rfl | hne
        · simp [Function.update_same] at h2
        · simp only [Function.update_noteq hne] at h2
          exact hcn t2 h2
      · intro t2 h2
        rcases eq_or_ne t2 t with rfl | hne
        · simp [Function.update_same, DCL.PC.sawPtr] at h2
        · simp only [Function.update_noteq hne] at h2
          exact hsaw t2 h2
      · intro t2 v h2
        rcases eq_or_ne t2 t with rfl | hne
        · simp [Function.update_same] at h2
        · simp only [Function.update_noteq hne] at h2
          exact hd t2 v h2
  | recheckNull t hpc hptr =>
      refine ⟨hp, ?_, ?_, ?_, ?_⟩
      · intro t2 h2
        rcases eq_or_ne t2 t with rfl | hne
        · exact hl t2 (by simp [hpc, DCL.PC.holdsLock])
        · simp only [Function.update_noteq hne] at h2
          exact hl t2 h2
      · intro t2 h2
        exact hptr
      · intro t2 h2
        rcases eq_or_ne t2 t with rfl | hne
        · simp [Function.update_same, DCL.PC.sawPtr] at h2
        · simp only [Function.update_noteq hne] at h2
          exact hsaw t2 h2
      · intro t2 v h2
        rcases eq_or_ne t2 t with rfl | hne
        · simp [Function.update_same] at h2
        · simp only [Function.update_noteq hne] at h2
          exact hd t2 v h2
  | recheckHit t i hpc hptr =>
      refine ⟨hp, ?_, ?_, ?_, ?_⟩
      · intro t2 h2
        rcases eq_or_ne t2 t with rfl | hne
        · exact hl t2 (by simp [hpc, DCL.PC.holdsLock])
        · simp only [Function.update_noteq hne] at h2
          exact hl t2 h2
      · intro t2 h2
        rcases eq_or_ne t2 t with rfl | hne
        · simp [Function.update_same] at h2
        · simp only [Function.update_noteq hne] at h2
          exact hcn t2 h2
      · intro t2 h2
        simp [hptr]
      · intro t2 v h2
        rcases eq_or_ne t2 t with rfl | hne
        · simp [Function.update_same] at h2
        · simp only [Function.update_noteq hne] at h2
          exact hd t2 v h2
  | construct t hpc =>
      have hnone : c.ptr = none := hcn t hpc
      have hzero : c.ctorCount = 0 := by
        rcases hp with ⟨h1, h2⟩ | ⟨h1, h2⟩
        · exact h2
        · rw [hnone] at h1
          exact Option.noConfusion h1
      refine ⟨Or.inr ⟨by rw [hzero], by rw [hzero]⟩, ?_, ?_, ?_, ?_⟩
      · intro t2 h2
        rcases eq_or_ne t2 t with rfl | hne
        · exact hl t2 (by simp [hpc, DCL.PC.holdsLock])
        · simp only [Function.update_noteq hne] at h2
          exact hl t2 h2
      · intro t2 h2
        rcases eq_or_ne t2 t with rfl | hne
        · simp [Function.update_same] at h2
        · simp only [Function.update_noteq hne] at h2
          have ht2 : c.lock = some t2 := hl t2 (by simp [h2, DCL.PC.holdsLock])
          have ht1 : c.lock = some t := hl t (by simp [hpc, DCL.PC.holdsLock])
          exact absurd (Option.some.inj (ht1.symm.trans ht2)).symm hne
      · intro t2 h2
        simp
      · intro t2 v h2
        rcases eq_or_ne t2 t with rfl | hne
        · simp [Function.update_same] at h2
        · simp only [Function.update_noteq hne] at h2
          exact hd t2 v h2
  | unlock t hpc =>
      refine ⟨hp, ?_, ?_, ?_, ?_⟩
      · intro t2 h2
        rcases eq_or_ne t2 t with rfl | hne
        · simp [Function.update_same, DCL.PC.holdsLock] at h2
        · simp only [Function.update_noteq hne] at h2
          have ht2 : c.lock = some t2 := hl t2 h2
          have ht1 : c.lock = some t := hl t (by simp [hpc, DCL.PC.holdsLock])
          exact absurd (Option.some.inj (ht1.symm.trans ht2)).symm hne
      · intro t2 h2
        rcases eq_or_ne t2 t with rfl | hne
        · simp [Function.update_same] at h2
        · simp only [Function.update_noteq hne] at h2
          exact hcn t2 h2
      · intro t2 h2
        rcases eq_or_ne t2 t with rfl | hne
        · exact hsaw t2 (by simp [hpc, DCL.PC.sawPtr])
        · simp only [Function.update_noteq hne] at h2
          exact hsaw t2 h2
      · intro t2 v h2
        rcases eq_or_ne t2 t with rfl | hne
        · simp [Function.update_same] at h2
        · simp only [Function.update_noteq hne] at h2
          exact hd t2 v h2
  | ret t hpc =>
      have hne0 : c.ptr ≠ none := hsaw t (by simp [hpc, DCL.PC.sawPtr])
      have hsome : c.ptr = some 0 := by
        rcases hp with ⟨h1, h2⟩ | ⟨h1, h2⟩
        · exact absurd h1 hne0
        · exact h1
      refine ⟨hp, ?_, ?_, ?_, ?_⟩
      · intro t2 h2
        rcases eq_or_ne t2 t with rfl | hne
        · simp [Function.update_same, DCL.PC.holdsLock] at h2
        · simp only [Function.update_noteq hne] at h2
          exact hl t2 h2
      · intro t2 h2
        rcases eq_or_ne t2 t with rfl | hne
        · simp [Function.update_same] at h2
        · simp only [Function.update_noteq hne] at h2
          exact hcn t2 h2
      · intro t2 h2
        exact hne0
      · intro t2 v h2
        rcases eq_or_ne t2 t with rfl | hne
        · simp [Function.update_same] at h2
          exact h2 ▸ hsome
        · simp only [Function.update_noteq hne] at h2
          exact hd t2 v h2

/-- The invariant holds in every reachable DCL configuration. -/
theorem dcl_reachable_inv {n : Nat} {c : DCL.Config n}
    (h : DCL.DReachable c) : DCL.DInv c := by
  induction h with
  | refl => exact dcl_inv_init n
  | tail hsteps hstep ih => exact dcl_inv_step ih hstep

/-- The invariant holds in the initial magic-static configuration. -/
theorem magic_inv_init (n : Nat) : MagicStatic.MInv (MagicStatic.mInit n) := by
  refine ⟨Or.inl ⟨rfl, rfl⟩, ?_, ?_⟩
  · intro t h; simp [MagicStatic.mInit] at h
  · intro t v h; simp [MagicStatic.mInit] at h

/-- Every interleaved step of the one-time-initialization protocol
preserves the invariant. -/
theorem magic_inv_step {n : Nat} {c c2 : MagicStatic.MConfig n}
    (hi : MagicStatic.MInv c) (hs : MagicStatic.MStep c c2) :
    MagicStatic.MInv c2 := by
  obtain ⟨hgc, hco, hd⟩ := hi
  cases hs with
  | hit t v hpc hg =>
      have hv : v = 0 := by
        rcases hgc with ⟨h1, h2⟩ | ⟨t2, h1, h2⟩ | ⟨h1, h2⟩
        · exact MagicStatic.Guard.noConfusion (h1.symm.trans hg)
        · exact MagicStatic.Guard.noConfusion (h1.symm.trans hg)
        · exact (MagicStatic.Guard.ready.inj (hg.symm.trans h1))
      refine ⟨hgc, ?_, ?_⟩
      · intro t2 h2
        rcases eq_or_ne t2 t with rfl | hne
        · simp [Function.update_same] at h2
        · simp only [Function.update_noteq hne] at h2
          exact hco t2 h2
      · intro t2 w h2
        rcases eq_or_ne t2 t with rfl | hne
        · simp [Function.update_same] at h2
          exact ⟨h2 ▸ hv, hg.trans (by rw [hv])⟩
        · simp only [Function.update_noteq hne] at h2
          exact hd t2 w h2
  | claim t hpc hg =>
      have hc0 : c.ctorCount = 0 := by
        rcases hgc with ⟨h1, h2⟩ | ⟨t2, h1, h2⟩ | ⟨h1, h2⟩
        · exact h2
        · exact h2
        · exact MagicStatic.Guard.noConfusion (h1.symm.trans hg)
      refine ⟨Or.inr (Or.inl ⟨t, rfl, hc0⟩), ?_, ?_⟩
      · intro t2 h2
        rcases eq_or_ne t2 t with rfl | hne
        · rfl
        · simp only [Function.update_noteq hne] at h2
          exact MagicStatic.Guard.noConfusion (hg.symm.trans (hco t2 h2))
      · intro t2 w h2
        rcases eq_or_ne t2 t with rfl | hne
        · simp [Function.update_same] at h2
        · simp only [Function.update_noteq hne] at h2
          exact absurd (hg.symm.trans (hd t2 w h2).2)
            (fun hx => MagicStatic.Guard.noConfusion hx)
  | finish t hpc =>
      have hown : c.guard = .initing t := hco t hpc
      have hc0 : c.ctorCount = 0 := by
        rcases hgc with ⟨h1, h2⟩ | ⟨t2, h1, h2⟩ | ⟨h1, h2⟩
        · exact h2
        · exact h2
        · exact MagicStatic.Guard.noConfusion (h1.symm.trans hown)
      refine ⟨Or.inr (Or.inr ⟨by simp [hc0], by simp [hc0]⟩), ?_, ?_⟩
      · intro t2 h2
        rcases eq_or_ne t2 t with rfl | hne
        · simp [Function.update_same] at h2
        · simp only [Function.update_noteq hne] at h2
          exact absurd
            (MagicStatic.Guard.initing.inj (hown.symm.trans (hco t2 h2))).symm hne
      · intro t2 w h2
        rcases eq_or_ne t2 t with rfl | hne
        · simp [Function.update_same] at h2
          exact ⟨h2 ▸ hc0, by simp [hc0]⟩
        · simp only [Function.update_noteq hne] at h2
          exact MagicStatic.Guard.noConfusion (hown.symm.trans (hd t2 w h2).2)

/-- The invariant holds in every reachable magic-static configuration. -/
theorem magic_reachable_inv {n : Nat} {c : MagicStatic.MConfig n}
    (h : MagicStatic.MReachable c) : MagicStatic.MInv c := by
  induction h with
  | refl => exact magic_inv_init n
  | tail hsteps hstep ih => exact magic_inv_step ih hstep

/-- Updating a function on the one-element index type yields the constant
function. -/
theorem fin1_update {α : Type} (f : Fin 1 → α) (v : α) (t0 : Fin 1) :
    Function.update f t0 v = fun _ => v := by
  funext t
  have ht : t = t0 := Subsingleton.elim t t0
  rw [ht, Function.update_same]

/- ======================= Claim theorems ============================== -/

/-- Claim C1: for Clobal over Foo starting from the empty slot, New(1,2)
succeeds and installs a Foo built from the arguments 1 and 2; Get then
returns that live Foo; after Delete, Get returns the absent indicator; a
second Delete right after returns without error (it is total and a fixed
point) and invokes no destructor. -/
theorem claim_C1 :
    Clobal.New fooCtor (1, 2) (Clobal.State.init Foo) =
      .ok ⟨some (fooCtor (1, 2)), 0, []⟩ ∧
    (Clobal.Get ⟨some (fooCtor (1, 2)), 0, []⟩).1 = some (Foo.mk 1 2) ∧
    (Clobal.Get (Clobal.Delete ⟨some (fooCtor (1, 2)), 0, []⟩)).1 = none ∧
    Clobal.Delete (Clobal.Delete ⟨some (fooCtor (1, 2)), 0, []⟩) =
      Clobal.Delete ⟨some (fooCtor (1, 2)), 0, []⟩ ∧
    (Clobal.Delete (Clobal.Delete ⟨some (fooCtor (1, 2)), 0, []⟩)).destroyed =
      (Clobal.Delete ⟨some (fooCtor (1, 2)), 0, []⟩).destroyed :=
  ⟨rfl, rfl, rfl, rfl, rfl⟩

/-- Claim C2: whenever the slot already holds an instance, Clobal::New
aborts with the failed assertion Get() == nullptr; in particular it never
returns successfully, so it neither silently succeeds nor replaces the
live instance. -/
theorem claim_C2 {T Args : Type} (ctor : Args → T) (a : Args)
    (s : Clobal.State T) (x : T) (h : s.slot = some x) :
    Clobal.New ctor a s =
      .error "assert failed in Clobal::New: Get() == nullptr" ∧
    ∀ s2, Clobal.New ctor a s ≠ Except.ok s2 := by
  refine ⟨?_, ?_⟩ <;> simp [Clobal.New, Clobal.Get, Clobal.GetPPtr, h]

/-- Witness for claim C2 at a concrete occupied slot. -/
theorem claim_C2_witness :
    Clobal.New fooCtor (3, 4) (⟨some (Foo.mk 1 2), 0, []⟩ : Clobal.State Foo) =
      .error "assert failed in Clobal::New: Get() == nullptr" :=
  (claim_C2 fooCtor (3, 4) _ (Foo.mk 1 2) rfl).1

/-- Claim C3: Clobal::Delete is idempotent — two successive calls equal
one call, and the second performs no destructor invocation; on an empty
slot Delete is a no-op, and on an occupied slot one call destroys the
instance (exactly one destructor invocation) and resets the slot to
absent. -/
theorem claim_C3 {T : Type} (s : Clobal.State T) :
    Clobal.Delete (Clobal.Delete s) = Clobal.Delete s ∧
    (Clobal.Delete (Clobal.Delete s)).destroyed = (Clobal.Delete s).destroyed ∧
    (s.slot = none → Clobal.Delete s = s) ∧
    (∀ x, s.slot = some x →
      (Clobal.Delete s).slot = none ∧
      (Clobal.Delete s).destroyed = s.destroyed + 1) := by
  cases h : s.slot <;>
    simp [Clobal.Delete, Clobal.Get, Clobal.GetPPtr, h]

/-- Witness for claim C3 at concrete empty and occupied slots. -/
theorem claim_C3_witness :
    Clobal.Delete (⟨none, 0, []⟩ : Clobal.State Foo) = ⟨none, 0, []⟩ ∧
    (Clobal.Delete (⟨some (Foo.mk 1 2), 5, []⟩ : Clobal.State Foo)).slot
      = none ∧
    (Clobal.Delete
      (⟨some (Foo.mk 1 2), 5, []⟩ : Clobal.State Foo)).destroyed = 6 := by
  refine ⟨(claim_C3 _).2.2.1 rfl, ?_, ?_⟩
  · exact ((claim_C3 _).2.2.2 (Foo.mk 1 2) rfl).1
  · exact ((claim_C3 _).2.2.2 (Foo.mk 1 2) rfl).2

/-- Claim C4: Clobal::Get returns exactly the current slot content (the
instance pointer, or the absent indicator none) and leaves the registry
state entirely unchanged: it never constructs and never modifies the
slot. -/
theorem claim_C4 {T : Type} (s : Clobal.State T) :
    (Clobal.Get s).1 = s.slot ∧ (Clobal.Get s).2 = s :=
  ⟨rfl, rfl⟩

/-- Claim C5: starting from the initial Singleton1 state, any sequence of
k+1 calls to get_instance runs the constructor exactly once and every
call returns the same non-null shared handle; moreover every call returns
a non-null handle, and on a state that already holds an instance a call
returns that same instance and changes nothing. -/
theorem claim_C5 (k : Nat) :
    (Singleton1.runCalls (k + 1) Singleton1.init).2.ctorCalls = 1 ∧
    (Singleton1.runCalls (k + 1) Singleton1.init).1 =
      List.replicate (k + 1) (some 0) ∧
    (∀ s : Singleton1.S, (Singleton1.get_instance s).1 ≠ none) ∧
    (∀ (s : Singleton1.S) (i : Nat), s.m_instance_ptr = some i →
      Singleton1.get_instance s = (some i, s)) := by
  have h1 : Singleton1.get_instance Singleton1.init = (some 0, ⟨some 0, 1⟩) := rfl
  refine ⟨?_, ?_, ?_, ?_⟩
  · simp [Singleton1.runCalls, h1, singleton1_runCalls_of_some k ⟨some 0, 1⟩ 0 rfl]
  · simp [Singleton1.runCalls, h1, singleton1_runCalls_of_some k ⟨some 0, 1⟩ 0 rfl,
      List.replicate_succ]
  · intro s
    cases h : s.m_instance_ptr <;> simp [Singleton1.get_instance, h]
  · intro s i h
    simp [Singleton1.get_instance, h]

/-- Witness for claim C5: one call from the initial state constructs
exactly once, and a call on a warm state returns the resident handle. -/
theorem claim_C5_witness :
    (Singleton1.runCalls 1 Singleton1.init).2.ctorCalls = 1 ∧
    Singleton1.get_instance ⟨some 7, 1⟩ = (some 7, ⟨some 7, 1⟩) :=
  ⟨(claim_C5 0).1, (claim_C5 0).2.2.2 ⟨some 7, 1⟩ 7 rfl⟩

/-- Claim C8: on an uninitialized Singleton3 static, get_instance throws
exactly when the constructor of T throws (the returned outcome is the
outcome of the constructor); on failure the error propagates, no instance
is installed, and the next call runs the constructor again from scratch;
on success the constructed instance is installed and returned. -/
theorem claim_C8 {T E : Type} (ctor : Singleton3.token → Except E T)
    (s : Singleton3.S T) (h : s.inst = none) :
    (Singleton3.get_instance3 ctor s).1 = ctor Singleton3.token.mk ∧
    (∀ e, ctor Singleton3.token.mk = .error e →
      Singleton3.get_instance3 ctor s = (.error e, ⟨none, s.ctorRuns + 1⟩) ∧
      (Singleton3.get_instance3 ctor
        (Singleton3.get_instance3 ctor s).2).2.ctorRuns = s.ctorRuns + 2) ∧
    (∀ v, ctor Singleton3.token.mk = .ok v →
      Singleton3.get_instance3 ctor s = (.ok v, ⟨some v, s.ctorRuns + 1⟩)) := by
  cases hc : ctor Singleton3.token.mk <;>
    simp [Singleton3.get_instance3, h, hc]

/-- Witness for claim C8: a throwing constructor propagates its error and
installs nothing; a succeeding constructor installs its value. -/
theorem claim_C8_witness :
    Singleton3.get_instance3 (fun _ => (.error "boom" : Except String Nat))
      (Singleton3.S.start Nat) = (.error "boom", ⟨none, 1⟩) ∧
    Singleton3.get_instance3 (fun _ => (.ok 42 : Except String Nat))
      (Singleton3.S.start Nat) = (.ok 42, ⟨some 42, 1⟩) := by
  constructor
  · exact ((claim_C8 (fun _ => (.error "boom" : Except String Nat))
      (Singleton3.S.start Nat) rfl).2.1 "boom" rfl).1
  · exact (claim_C8 (fun _ => (.ok 42 : Except String Nat))
      (Singleton3.S.start Nat) rfl).2.2 42 rfl

/-- Claim C10: Singleton4 is eagerly initialized — in the booted world the
constructor has already run exactly once, and any number k of calls to
get_instance returns the same pre-existing instance every time while
performing no construction and leaving the world unchanged. -/
theorem claim_C10 (k : Nat) :
    (Singleton4.runCalls4 k Singleton4.boot).2 = Singleton4.boot ∧
    (Singleton4.runCalls4 k Singleton4.boot).1 =
      List.replicate k Singleton4.boot.m_instance ∧
    (Singleton4.runCalls4 k Singleton4.boot).2.ctorCalls = 1 := by
  have h := singleton4_runCalls4_const k Singleton4.boot
  exact ⟨by simp [h], by simp [h], by rw [h]; rfl⟩

/-- Claim C6: for every number n of threads concurrently calling
get_instance before any instance exists, in both the double-checked
locking automaton of Singleton1 and the magic-static automaton of
Singleton2/Singleton3 (the token-gated variant), every reachable
configuration in which all n threads have returned shows exactly one
constructor invocation, and all n threads returned a handle or reference
to that same single instance. -/
theorem claim_C6 (n : Nat) (hn : 0 < n) :
    (∀ c : DCL.Config n, DCL.DReachable c → DCL.dAllDone c →
      c.ctorCount = 1 ∧ ∀ t, c.pcs t = .done (some 0)) ∧
    (∀ c : MagicStatic.MConfig n, MagicStatic.MReachable c →
      MagicStatic.mAllDone c →
      c.ctorCount = 1 ∧ ∀ t, c.pcs t = .done 0) := by
  constructor
  · intro c hr hdone
    obtain ⟨hp, hl, hcn, hsaw, hd⟩ := dcl_reachable_inv hr
    have hall : ∀ t, c.pcs t = DCL.PC.done (some 0) := by
      intro t
      obtain ⟨v, hv⟩ := hdone t
      rw [hv, hd t v hv]
    have hptr : c.ptr ≠ none :=
      hsaw ⟨0, hn⟩ (by simp [hall ⟨0, hn⟩, DCL.PC.sawPtr])
    have hc1 : c.ctorCount = 1 := by
      rcases hp with ⟨h1, h2⟩ | ⟨h1, h2⟩
      · exact absurd h1 hptr
      · exact h2
    exact ⟨hc1, hall⟩
  · intro c hr hdone
    obtain ⟨hgc, hco, hd⟩ := magic_reachable_inv hr
    have hall : ∀ t, c.pcs t = MagicStatic.GPC.done 0 := by
      intro t
      obtain ⟨v, hv⟩ := hdone t
      rw [hv, (hd t v hv).1]
    have hready : c.guard = .ready 0 := (hd ⟨0, hn⟩ 0 (hall ⟨0, hn⟩)).2
    have hc1 : c.ctorCount = 1 := by
      rcases hgc with ⟨h1, h2⟩ | ⟨t2, h1, h2⟩ | ⟨h1, h2⟩
      · exact MagicStatic.Guard.noConfusion (h1.symm.trans hready)
      · exact MagicStatic.Guard.noConfusion (h1.symm.trans hready)
      · exact h2
    exact ⟨hc1, hall⟩

/-- Witness for claim C6: one thread drives each automaton to completion;
in the final configurations the constructor ran exactly once and the
thread returned the single instance. -/
theorem claim_C6_witness :
    (dTrace 6).ctorCount = 1 ∧ (dTrace 6).pcs 0 = .done (some 0) ∧
    (mTrace 2).ctorCount = 1 ∧ (mTrace 2).pcs 0 = .done 0 := by
  have h01 : DCL.DStep (dTrace 0) (dTrace 1) := by
    have h := DCL.DStep.checkMiss (dTrace 0) 0 rfl rfl
    simpa [dTrace, fin1_update] using h
  have h12 : DCL.DStep (dTrace 1) (dTrace 2) := by
    have h := DCL.DStep.acquire (dTrace 1) 0 rfl rfl
    simpa [dTrace, fin1_update] using h
  have h23 : DCL.DStep (dTrace 2) (dTrace 3) := by
    have h := DCL.DStep.recheckNull (dTrace 2) 0 rfl rfl
    simpa [dTrace, fin1_update] using h
  have h34 : DCL.DStep (dTrace 3) (dTrace 4) := by
    have h := DCL.DStep.construct (dTrace 3) 0 rfl
    simpa [dTrace, fin1_update] using h
  have h45 : DCL.DStep (dTrace 4) (dTrace 5) := by
    have h := DCL.DStep.unlock (dTrace 4) 0 rfl
    simpa [dTrace, fin1_update] using h
  have h56 : DCL.DStep (dTrace 5) (dTrace 6) := by
    have h := DCL.DStep.ret (dTrace 5) 0 rfl
    simpa [dTrace, fin1_update] using h
  have hreach : DCL.DReachable (dTrace 6) :=
    Relation.ReflTransGen.tail
      (Relation.ReflTransGen.tail
        (Relation.ReflTransGen.tail
          (Relation.ReflTransGen.tail
            (Relation.ReflTransGen.tail
              (Relation.ReflTransGen.tail Relation.ReflTransGen.refl h01)
              h12) h23) h34) h45) h56
  have hdone : DCL.dAllDone (dTrace 6) := fun t => ⟨some 0, rfl⟩
  have hm01 : MagicStatic.MStep (mTrace 0) (mTrace 1) := by
    have h := MagicStatic.MStep.claim (mTrace 0) 0 rfl rfl
    simpa [mTrace, fin1_update] using h
  have hm12 : MagicStatic.MStep (mTrace 1) (mTrace 2) := by
    have h := MagicStatic.MStep.finish (mTrace 1) 0 rfl
    simpa [mTrace, fin1_update] using h
  have hmreach : MagicStatic.MReachable (mTrace 2) :=
    Relation.ReflTransGen.tail
      (Relation.ReflTransGen.tail Relation.ReflTransGen.refl hm01) hm12
  have hmdone : MagicStatic.mAllDone (mTrace 2) := fun t => ⟨0, rfl⟩
  have hmain := claim_C6 1 (by decide)
  refine ⟨(hmain.1 (dTrace 6) hreach hdone).1,
    (hmain.1 (dTrace 6) hreach hdone).2 0,
    (hmain.2 (mTrace 2) hmreach hmdone).1,
    (hmain.2 (mTrace 2) hmreach hmdone).2 0⟩
